import Mathlib

/-!
Verification of the pitch-detection and tuning-feedback engine of the
guitar-visualization app (source: the Tuner component).

The engine consists of
  * `freqToNote`  : frequency → { note, octave, cents } (Note Mapper),
  * `detectPitch` : YIN-style autocorrelation fundamental estimator,
  * the `MeterMode` per-frame `detect` cycle (Tuning Session / Stabilizer).

JavaScript numbers are modelled as real numbers, with the non-finite values
that the detector can actually produce (NaN from the 0/0 division and from
out-of-bounds `Float32Array` reads, ±Infinity from division by zero) made
explicit: `Option ℝ` is a real-or-NaN value, and `JSNum` adds the two
infinities.  JS comparisons involving NaN are false; `Math.round x` is
`⌊x + 1/2⌋` (round half toward +∞); `%` on integers is truncated remainder
(`Int.tmod`).
-/

open scoped Classical

noncomputable section

/-! ### Note mapper: `freqToNote` -/

/-- All 12 note names for frequency → note conversion (source line 18); the
source writes the flat array from "C" up to "B" in sharp spelling, split
here into two halves for readability. -/
def NOTE_NAMES : List String :=
  ["C", "C#", "D", "D#", "E", "F"] ++ ["F#", "G", "G#", "A", "A#", "B"]

/-- The fixed tuning reference (source line 19). -/
def A4_FREQ : ℝ := 440

/-- JavaScript `Math.round`: round half toward +∞. -/
def jsRound (x : ℝ) : ℤ := ⌊x + 1 / 2⌋

/-- Result record of `freqToNote` (source line 29). -/
structure NoteInfo where
  note : String
  octave : ℤ
  cents : ℤ
  noteWithOctave : String

/-- The local `semitones` value of `freqToNote` (source line 30). -/
def semitonesOf (freq : ℝ) : ℝ := 12 * Real.logb 2 (freq / A4_FREQ)

/-- Convert frequency to { note, octave, cents } (source lines 29–39). -/
def freqToNote (freq : ℝ) : NoteInfo :=
  let semitones := semitonesOf freq
  let rounded := jsRound semitones
  let cents := jsRound ((semitones - rounded) * 100)
  let midi : ℤ := 69 + rounded
  let noteIndex : ℕ := ((midi.tmod 12 + 12).tmod 12).toNat
  let octave : ℤ := ⌊(midi : ℝ) / 12⌋ - 1
  { note := NOTE_NAMES.getD noteIndex ""
    octave := octave
    cents := cents
    noteWithOctave := NOTE_NAMES.getD noteIndex "" ++ toString octave }

/-! ### Fundamental estimator: `detectPitch` -/

/-- An audio frame: mono float samples, modelled as reals. -/
abbrev Frame := List ℝ

/-- JS numbers appearing in the pitch path: finite, an infinity, or NaN. -/
inductive JSNum where
  | fin : ℝ → JSNum
  | posInf : JSNum
  | negInf : JSNum
  | nan : JSNum

/-- JS `a < c` where `a` is real-or-NaN (`none` = NaN): comparisons with NaN
are false. -/
def jsLtR : Option ℝ → ℝ → Prop
  | some x, c => x < c
  | none, _ => False

/-- JS `a < b` on two real-or-NaN values. -/
def jsLtO : Option ℝ → Option ℝ → Prop
  | some x, some y => x < y
  | some _, none => False
  | none, _ => False

/-- JS `f < c` for a possibly non-finite left operand. -/
def jsNumLt : JSNum → ℝ → Prop
  | JSNum.fin x, c => x < c
  | JSNum.negInf, _ => True
  | JSNum.posInf, _ => False
  | JSNum.nan, _ => False

/-- JS `f > c` for a possibly non-finite left operand. -/
def jsNumGt : JSNum → ℝ → Prop
  | JSNum.fin x, c => c < x
  | JSNum.posInf, _ => True
  | JSNum.negInf, _ => False
  | JSNum.nan, _ => False

/-- Sum of squared samples: the `rms` accumulation loop (source lines 45-46). -/
def sumSq (buf : Frame) : ℝ := (buf.map fun x => x * x).sum

/-- The frame RMS (source line 47); `none` is the NaN produced by `0/0` on
an empty frame. -/
def rmsOpt (buf : Frame) : Option ℝ :=
  if buf.length = 0 then none
  else some (Real.sqrt (sumSq buf / buf.length))

/-- Difference function `d(τ)` (source lines 56-60): sum over the first half
of the frame of the squared difference with the frame shifted by `τ`. -/
def diffFn (buf : Frame) (tau : ℕ) : ℝ :=
  ∑ i in Finset.range (buf.length / 2),
    (buf.getD i 0 - buf.getD (i + tau) 0) ^ 2

/-- The `runningSum` accumulator after processing lag `tau` (source line 61). -/
def cumDiff (buf : Frame) : ℕ → ℝ
  | 0 => 0
  | t + 1 => cumDiff buf t + diffFn buf (t + 1)

/-- Entry `τ` of `yinBuffer` (source lines 51-63): 1 at lag 0, otherwise the
cumulative-mean-normalized difference `d(τ)·τ / runningSum`; `none` is the
NaN from `0/0` when the running sum is still zero (the numerator is zero
too, since the running sum bounds each difference). -/
def yinVal (buf : Frame) (tau : ℕ) : Option ℝ :=
  if tau = 0 then some 1
  else if cumDiff buf tau = 0 then none
  else some (diffFn buf tau * tau / cumDiff buf tau)

/-- Read `yinBuffer[i]` with JS out-of-bounds semantics: an index past the
end of the length-`half` buffer yields `undefined`, which behaves as NaN in
the arithmetic that follows. -/
def yinRead (buf : Frame) (half i : ℕ) : Option ℝ :=
  if i < half then yinVal buf i else none

/-- The inner local-minimum walk (source line 70): advance `tau` while the
next normalized value is strictly smaller. -/
def walkDip (buf : Frame) (half tau : ℕ) : ℕ :=
  if h : tau + 1 < half ∧ jsLtO (yinVal buf (tau + 1)) (yinVal buf tau) then
    walkDip buf half (tau + 1)
  else tau
termination_by half - tau
decreasing_by have := h.1; omega

/-- The threshold scan (source lines 66-74): scan `tau` upward; at the first
lag whose normalized value is below the threshold, walk to the local minimum
and stop there. -/
def scanTau (buf : Frame) (half tau : ℕ) : ℕ :=
  if h : tau < half then
    if jsLtR (yinVal buf tau) 0.15 then walkDip buf half tau
    else scanTau buf half (tau + 1)
  else tau
termination_by half - tau
decreasing_by omega

/-- Parabolic interpolation (source lines 78-81):
`betterTau = tau + (s2 - s0) / (2*(2*s1 - s2 - s0))` under JS arithmetic:
any NaN operand gives NaN, and division of a nonzero value by zero gives a
signed infinity (absorbing the addition of `tau`). -/
def betterTauOf (tau : ℕ) (s0 s1 s2 : Option ℝ) : JSNum :=
  match s0, s1, s2 with
  | some a, some b, some c =>
    if 2 * (2 * b - c - a) = 0 then
      if c - a = 0 then JSNum.nan
      else if 0 < c - a then JSNum.posInf
      else JSNum.negInf
    else JSNum.fin (tau + (c - a) / (2 * (2 * b - c - a)))
  | _, _, _ => JSNum.nan

/-- JS division `x / d` of a finite real by a possibly non-finite value
(source line 83): division by ±Infinity gives (signed) zero, by zero gives
an infinity or NaN, by NaN gives NaN. -/
def jsDiv (x : ℝ) : JSNum → JSNum
  | JSNum.fin y =>
    if y = 0 then
      if 0 < x then JSNum.posInf
      else if x < 0 then JSNum.negInf
      else JSNum.nan
    else JSNum.fin (x / y)
  | JSNum.posInf => JSNum.fin 0
  | JSNum.negInf => JSNum.fin 0
  | JSNum.nan => JSNum.nan

/-- The guitar-range filter (source lines 84-86): `freq < 60 || freq > 1500`
under JS comparison semantics (both comparisons are false on NaN), else
return the value itself. -/
def rangeCheck (f : JSNum) : Option JSNum :=
  if jsNumLt f 60 ∨ jsNumGt f 1500 then none else some f

/-- YIN autocorrelation pitch detection (source lines 42-87).  `none` is the
JS `null`; a `some` value is the returned number, which is finite except on
the out-of-bounds-read NaN path. -/
def detectPitch (buf : Frame) (sampleRate : ℝ) : Option JSNum :=
  if jsLtR (rmsOpt buf) 0.01 then none
  else
    let half := buf.length / 2
    let tau := scanTau buf half 2
    if tau = half then none
    else
      rangeCheck (jsDiv sampleRate
        (betterTauOf tau (yinRead buf half (tau - 1)) (yinRead buf half tau)
          (yinRead buf half (tau + 1))))

/-- Spec-side predicate: `t0` is the first lag at or after 2 whose
normalized difference value is below the 0.15 threshold. -/
def firstDip (buf : Frame) (half t0 : ℕ) : Prop :=
  2 ≤ t0 ∧ t0 < half ∧ jsLtR (yinVal buf t0) 0.15 ∧
    ∀ t, 2 ≤ t → t < t0 → ¬ jsLtR (yinVal buf t) 0.15

/-! ### Tuning session: the `MeterMode` detect cycle -/

/-- The rolling average window capacity (source line 181). -/
def SMOOTHING_SIZE : ℕ := 8

/-- The microphone lifecycle state (source line 184). -/
inductive MicState where
  | idle : MicState
  | starting : MicState
  | active : MicState

/-- The `MeterMode` React state the detect cycle reads and writes. -/
structure MeterState where
  micState : MicState
  frequency : Option JSNum
  noteInfo : Option NoteInfo
  history : List ℤ
  smoothedCents : ℝ

/-- JS truthiness of the estimator result (`if (freq)`, source line 220):
null, NaN and zero are falsy. -/
def jsTruthy : Option JSNum → Prop
  | some (JSNum.fin x) => x ≠ 0
  | some JSNum.posInf => True
  | some JSNum.negInf => True
  | some JSNum.nan => False
  | none => False

/-- The finite value of a truthy estimator result.  `detectPitch` never
returns an infinity (the range filter rejects both), so the truthy branch
only ever sees `fin` values and the default is irrelevant. -/
def finPart : Option JSNum → ℝ
  | some (JSNum.fin x) => x
  | _ => 0

/-- One cycle of the `detect` callback (source lines 215-233): run the
estimator; on a pitch, map it to a note, push its cents into the rolling
window — evicting the oldest element when the capacity is exceeded — and
publish the window mean; otherwise clear the published note, leaving the
window untouched. -/
def detectStep (sampleRate : ℝ) (s : MeterState) (buf : Frame) : MeterState :=
  let freq := detectPitch buf sampleRate
  if jsTruthy freq then
    let info := freqToNote (finPart freq)
    let pushed := s.history ++ [info.cents]
    let window := if SMOOTHING_SIZE < pushed.length then pushed.tail else pushed
    { s with
      frequency := freq
      noteInfo := some info
      history := window
      smoothedCents := (window.sum : ℝ) / window.length }
  else
    { s with frequency := freq, noteInfo := none }

/-- Folding the detect cycle over a list of frames delivered while active. -/
def runDetect (sampleRate : ℝ) (s : MeterState) (frames : List Frame) : MeterState :=
  frames.foldl (detectStep sampleRate) s

/-- The initial React state of `MeterMode` (source lines 184-187). -/
def initialMeter : MeterState :=
  { micState := MicState.idle, frequency := none, noteInfo := none,
    history := [], smoothedCents := 0 }

/-- The state mutations of a successful `startMic` (source lines 196-213):
the cents history is cleared and the session becomes active. -/
def startMicState (s : MeterState) : MeterState :=
  { s with micState := MicState.active, history := [] }

/-- The state mutations of `stopMic` (source lines 240-254). -/
def stopMicState : MeterState → MeterState := fun _ =>
  { micState := MicState.idle, frequency := none, noteInfo := none,
    history := [], smoothedCents := 0 }

/-! ### Concrete inputs used by the counterexamples and witnesses -/

/-- Even-length frame whose first below-threshold lag is the last index of
the normalized buffer, driving the parabolic step out of bounds. -/
def bufLast : Frame := [1, 0, 0, 1, 0, 0, 1, 0]

/-- Even-length frame with exact period 2 (a detectable pitch). -/
def bufP2 : Frame := [1, -1, 1, -1, 1, -1, 1, -1]

/-- A frame of digital silence. -/
def silence8 : Frame := List.replicate 8 0

/-- Session state holding the spec's example window of eight cents values. -/
def st8 : MeterState :=
  { micState := MicState.active, frequency := none, noteInfo := none,
    history := [10, 10, 10, -10, -10, -10, -10, -10], smoothedCents := -5 / 2 }

end

/-! ### Evaluation helpers for `freqToNote` -/

theorem jsRound_eq_of (x : ℝ) (n : ℤ) (h1 : (n : ℝ) ≤ x + 1 / 2)
    (h2 : x + 1 / 2 < n + 1) : jsRound x = n := by
  unfold jsRound
  rw [Int.floor_eq_iff]
  exact ⟨h1, h2⟩

theorem semitonesOf_rpow (e : ℝ) : semitonesOf (440 * (2 : ℝ) ^ e) = 12 * e := by
  unfold semitonesOf A4_FREQ
  have h : (440 * (2 : ℝ) ^ e) / 440 = (2 : ℝ) ^ e := by ring
  rw [h, Real.logb_rpow (by norm_num) (by norm_num)]

theorem semitonesOf_440 : semitonesOf 440 = 0 := by
  unfold semitonesOf A4_FREQ
  norm_num [Real.logb_one]

theorem freqToNote_440 :
    freqToNote 440 = { note := "A", octave := 4, cents := 0, noteWithOctave := "A4" } := by
  have hr0 : jsRound (0 : ℝ) = 0 := jsRound_eq_of 0 0 (by norm_num) (by norm_num)
  simp only [freqToNote, semitonesOf_440, hr0]
  have hc : jsRound ((0 - ((0 : ℤ) : ℝ)) * 100) = 0 := by
    rw [show ((0 : ℝ) - ((0 : ℤ) : ℝ)) * 100 = 0 by norm_num]
    exact hr0
  rw [hc]
  have hoct : ⌊(((69 + 0 : ℤ) : ℝ)) / 12⌋ - 1 = 4 := by
    norm_num [Int.floor_eq_iff]
  rw [hoct]
  rfl

theorem freqToNote_cents (f : ℝ) :
    (freqToNote f).cents =
      jsRound ((semitonesOf f - jsRound (semitonesOf f)) * 100) := rfl

theorem jsRound_mono {x y : ℝ} (h : x ≤ y) : jsRound x ≤ jsRound y :=
  Int.floor_mono (by linarith)

theorem freqToNote_quartertone :
    freqToNote (440 * (2 : ℝ) ^ ((1 : ℝ) / 24)) =
      { note := "A#", octave := 4, cents := -50, noteWithOctave := "A#4" } := by
  have hs : semitonesOf (440 * (2 : ℝ) ^ ((1 : ℝ) / 24)) = 1 / 2 := by
    rw [semitonesOf_rpow]; norm_num
  have hr : jsRound ((1 : ℝ) / 2) = 1 := jsRound_eq_of _ 1 (by norm_num) (by norm_num)
  simp only [freqToNote, hs, hr]
  have hc : jsRound (((1 : ℝ) / 2 - ((1 : ℤ) : ℝ)) * 100) = -50 := by
    apply jsRound_eq_of <;> norm_num
  rw [hc]
  have hoct : ⌊(((69 + 1 : ℤ) : ℝ)) / 12⌋ - 1 = 4 := by
    norm_num [Int.floor_eq_iff]
  rw [hoct]
  rfl

theorem freqToNote_quartersharp_48 :
    (freqToNote (440 * (2 : ℝ) ^ ((1 : ℝ) / 48))).cents = 25 := by
  rw [freqToNote_cents]
  have hs : semitonesOf (440 * (2 : ℝ) ^ ((1 : ℝ) / 48)) = 1 / 4 := by
    rw [semitonesOf_rpow]; norm_num
  rw [hs]
  have hr : jsRound ((1 : ℝ) / 4) = 0 := jsRound_eq_of _ 0 (by norm_num) (by norm_num)
  rw [hr]
  apply jsRound_eq_of <;> norm_num

/-- C10: for the input frequency exactly 440 Hz, `freqToNote` returns pitch
class A, octave 4 (the fixed reference octave), and cents 0. -/
theorem C10_a440_thm :
    (freqToNote 440).note = "A" ∧ (freqToNote 440).octave = 4 ∧
      (freqToNote 440).cents = 0 := by
  rw [freqToNote_440]
  exact ⟨rfl, rfl, rfl⟩

/-- C2 (counterexample): `freqToNote` does return cents = +50: at the
positive frequency 440·2^(99/2400) (a residual of exactly 49.5 cents,
which `Math.round` rounds up to 50), refuting the claimed half-open
range [-50, 50). -/
theorem C2_counterexample :
    0 < 440 * (2 : ℝ) ^ ((99 : ℝ) / 2400) ∧
      (freqToNote (440 * (2 : ℝ) ^ ((99 : ℝ) / 2400))).cents = 50 := by
  constructor
  · positivity
  · rw [freqToNote_cents]
    have hs : semitonesOf (440 * (2 : ℝ) ^ ((99 : ℝ) / 2400)) = 99 / 200 := by
      rw [semitonesOf_rpow]; norm_num
    rw [hs]
    have hr : jsRound ((99 : ℝ) / 200) = 0 := jsRound_eq_of _ 0 (by norm_num) (by norm_num)
    rw [hr]
    apply jsRound_eq_of <;> norm_num

/-- C2 (amended): for every positive input frequency, the cents value
returned by `freqToNote` lies in the closed range [-50, 50]; the value +50
is attainable (see the counterexample), so the range is closed on the
right, not half-open. -/
theorem C2_cents_range_thm (f : ℝ) (hf : 0 < f) :
    -50 ≤ (freqToNote f).cents ∧ (freqToNote f).cents ≤ 50 := by
  rw [freqToNote_cents]
  set s := semitonesOf f with hs
  have h1 : ((jsRound s : ℤ) : ℝ) ≤ s + 1 / 2 := Int.floor_le _
  have h2 : s + 1 / 2 < (jsRound s : ℤ) + 1 := Int.lt_floor_add_one _
  constructor
  · apply Int.le_floor.mpr
    push_cast
    linarith
  · apply Int.floor_le_iff.mpr
    push_cast
    linarith

/-- C2 witness: the range theorem applied at the concrete frequency 440. -/
theorem C2_cents_range_witness :
    0 < (440 : ℝ) ∧ -50 ≤ (freqToNote 440).cents ∧ (freqToNote 440).cents ≤ 50 :=
  ⟨by norm_num, C2_cents_range_thm 440 (by norm_num)⟩

/-- C3 (counterexample): at 440·2^(1/24) Hz (exactly a quarter-tone sharp
of A4) the code does NOT return pitch class A with cents 50: the exact
half-semitone rounds up to the next semitone. -/
theorem C3_counterexample :
    ¬ ((freqToNote (440 * (2 : ℝ) ^ ((1 : ℝ) / 24))).note = "A" ∧
       (freqToNote (440 * (2 : ℝ) ^ ((1 : ℝ) / 24))).cents = 50) := by
  rw [freqToNote_quartertone]
  intro h
  exact absurd h.1 (by decide)

/-- C3 (amended): at 440·2^(1/24) Hz, `freqToNote` returns pitch class A#
(octave 4) with cents = -50: `Math.round` sends the exact half-semitone up
to the semitone above, and the residual -50 cents is reported. -/
theorem C3_amended_thm :
    (freqToNote (440 * (2 : ℝ) ^ ((1 : ℝ) / 24))).note = "A#" ∧
      (freqToNote (440 * (2 : ℝ) ^ ((1 : ℝ) / 24))).octave = 4 ∧
      (freqToNote (440 * (2 : ℝ) ^ ((1 : ℝ) / 24))).cents = -50 := by
  rw [freqToNote_quartertone]
  exact ⟨rfl, rfl, rfl⟩

/-- C9: within a single semitone band (two positive frequencies whose
semitone counts round to the same integer), the cents value returned by
`freqToNote` is monotone in frequency. -/
theorem C9_cents_monotone_thm (f1 f2 : ℝ) (h0 : 0 < f1) (h12 : f1 < f2)
    (hband : jsRound (semitonesOf f1) = jsRound (semitonesOf f2)) :
    (freqToNote f1).cents ≤ (freqToNote f2).cents := by
  rw [freqToNote_cents, freqToNote_cents, hband]
  have hs : semitonesOf f1 ≤ semitonesOf f2 := by
    unfold semitonesOf A4_FREQ
    have hdiv : f1 / 440 < f2 / 440 := by
      apply div_lt_div_of_pos_right h12
      norm_num
    have := Real.logb_lt_logb (b := 2) (by norm_num) (by positivity) hdiv
    linarith
  apply jsRound_mono
  have : ((jsRound (semitonesOf f2) : ℤ) : ℝ) = ((jsRound (semitonesOf f2) : ℤ) : ℝ) := rfl
  nlinarith [hs]

/-- C9 witness: the monotonicity theorem applied at 440 Hz and the
quarter-of-a-quarter-tone-sharp 440·2^(1/48) Hz, both inside the A band. -/
theorem C9_cents_monotone_witness :
    (freqToNote 440).cents ≤ (freqToNote (440 * (2 : ℝ) ^ ((1 : ℝ) / 48))).cents := by
  apply C9_cents_monotone_thm
  · norm_num
  · nth_rewrite 1 [show (440 : ℝ) = 440 * (2 : ℝ) ^ (0 : ℝ) by
      rw [Real.rpow_zero]; ring]
    have h2 : (2 : ℝ) ^ (0 : ℝ) < (2 : ℝ) ^ ((1 : ℝ) / 48) :=
      Real.rpow_lt_rpow_of_exponent_lt (by norm_num) (by norm_num)
    nlinarith [h2]
  · rw [semitonesOf_440, semitonesOf_rpow]
    have h4 : (12 : ℝ) * (1 / 48) = 1 / 4 := by norm_num
    rw [h4]
    rw [jsRound_eq_of (0 : ℝ) 0 (by norm_num) (by norm_num),
      jsRound_eq_of ((1 : ℝ) / 4) 0 (by norm_num) (by norm_num)]

/-! ### The normalized difference buffer (claim C5) -/

theorem cumDiff_zero (buf : Frame) : cumDiff buf 0 = 0 := rfl

theorem cumDiff_succ (buf : Frame) (t : ℕ) :
    cumDiff buf (t + 1) = cumDiff buf t + diffFn buf (t + 1) := rfl

theorem cumDiff_eq_sum (buf : Frame) (tau : ℕ) :
    cumDiff buf tau = ∑ j in Finset.Icc 1 tau, diffFn buf j := by
  induction tau with
  | zero => simp [cumDiff_zero]
  | succ t ih =>
      rw [cumDiff_succ, ih, Finset.sum_Icc_succ_top (by omega : 1 ≤ t + 1)]

/-- C5: on an even-length frame that passes the silence gate, the
normalized difference buffer matches the spec formula: entry 0 is 1, and
entry `τ` for `1 ≤ τ < N/2` equals `τ·d(τ) / (Σ_{j=1}^{τ} d(j))` with
`d(τ) = Σ_{i=0}^{N/2−1} (x[i] − x[i+τ])²` (stated when the normalizing sum
is nonzero; when it vanishes the JS code computes the NaN `0/0`, so the
fraction does not denote). -/
theorem C5_normalization_thm (buf : Frame) (tau : ℕ)
    (heven : buf.length % 2 = 0)
    (hgate : ¬ jsLtR (rmsOpt buf) 0.01)
    (h1 : 1 ≤ tau) (h2 : tau < buf.length / 2)
    (hden : ∑ j in Finset.Icc 1 tau, diffFn buf j ≠ 0) :
    yinVal buf tau =
      some ((tau : ℝ) * diffFn buf tau / ∑ j in Finset.Icc 1 tau, diffFn buf j)
    ∧ yinVal buf 0 = some 1 := by
  constructor
  · unfold yinVal
    rw [if_neg (by omega), if_neg (by rw [cumDiff_eq_sum]; exact hden),
      cumDiff_eq_sum]
    congr 1
    ring
  · rfl

/-! ### The threshold search and the local-minimum walk (claim C6) -/

theorem walkDip_spec (buf : Frame) (half : ℕ) (t : ℕ) :
    t ≤ walkDip buf half t
    ∧ (∀ k, t ≤ k → k < walkDip buf half t →
        k + 1 < half ∧ jsLtO (yinVal buf (k + 1)) (yinVal buf k))
    ∧ ¬ (walkDip buf half t + 1 < half
        ∧ jsLtO (yinVal buf (walkDip buf half t + 1))
            (yinVal buf (walkDip buf half t))) := by
  have H : ∀ n t, half - t ≤ n →
      t ≤ walkDip buf half t
      ∧ (∀ k, t ≤ k → k < walkDip buf half t →
          k + 1 < half ∧ jsLtO (yinVal buf (k + 1)) (yinVal buf k))
      ∧ ¬ (walkDip buf half t + 1 < half
          ∧ jsLtO (yinVal buf (walkDip buf half t + 1))
              (yinVal buf (walkDip buf half t))) := by
    intro n
    induction n with
    | zero =>
        intro t ht
        have hc : ¬ (t + 1 < half ∧ jsLtO (yinVal buf (t + 1)) (yinVal buf t)) := by
          rintro ⟨hlt, -⟩
          omega
        rw [walkDip, dif_neg hc]
        exact ⟨le_rfl, fun k hk1 hk2 => absurd hk2 (by omega), hc⟩
    | succ n ih =>
        intro t ht
        by_cases hc : t + 1 < half ∧ jsLtO (yinVal buf (t + 1)) (yinVal buf t)
        · rw [walkDip, dif_pos hc]
          obtain ⟨ih1, ih2, ih3⟩ := ih (t + 1) (by omega)
          refine ⟨le_trans (Nat.le_succ t) ih1, ?_, ih3⟩
          intro k hk1 hk2
          rcases eq_or_lt_of_le hk1 with rfl | hk
          · exact hc
          · exact ih2 k hk hk2
        · rw [walkDip, dif_neg hc]
          exact ⟨le_rfl, fun k hk1 hk2 => absurd hk2 (by omega), hc⟩
  exact H (half - t) t le_rfl

theorem scanTau_eq_of_no_dip (buf : Frame) (half : ℕ) (t : ℕ) (ht : t ≤ half)
    (hno : ∀ u, t ≤ u → u < half → ¬ jsLtR (yinVal buf u) 0.15) :
    scanTau buf half t = half := by
  have H : ∀ n t, half - t ≤ n → t ≤ half →
      (∀ u, t ≤ u → u < half → ¬ jsLtR (yinVal buf u) 0.15) →
      scanTau buf half t = half := by
    intro n
    induction n with
    | zero =>
        intro t hn htle _
        have : t = half := by omega
        subst this
        rw [scanTau, dif_neg (by omega)]
    | succ n ih =>
        intro t hn htle hno'
        by_cases htlt : t < half
        · rw [scanTau, dif_pos htlt, if_neg (hno' t le_rfl htlt)]
          exact ih (t + 1) (by omega) (by omega)
            (fun u hu1 hu2 => hno' u (by omega) hu2)
        · have : t = half := by omega
          subst this
          rw [scanTau, dif_neg (by omega)]
  exact H (half - t) t le_rfl ht hno

theorem scanTau_eq_walk_of_first_dip (buf : Frame) (half t0 : ℕ) (t : ℕ)
    (ht : t ≤ t0) (ht0 : t0 < half) (hdip : jsLtR (yinVal buf t0) 0.15)
    (hno : ∀ u, t ≤ u → u < t0 → ¬ jsLtR (yinVal buf u) 0.15) :
    scanTau buf half t = walkDip buf half t0 := by
  have H : ∀ n t, t0 - t ≤ n → t ≤ t0 →
      (∀ u, t ≤ u → u < t0 → ¬ jsLtR (yinVal buf u) 0.15) →
      scanTau buf half t = walkDip buf half t0 := by
    intro n
    induction n with
    | zero =>
        intro t hn htle _
        have : t = t0 := by omega
        subst this
        rw [scanTau, dif_pos (by omega), if_pos hdip]
    | succ n ih =>
        intro t hn htle hno'
        rcases eq_or_lt_of_le htle with rfl | htlt
        · rw [scanTau, dif_pos (by omega), if_pos hdip]
        · rw [scanTau, dif_pos (by omega), if_neg (hno' t le_rfl htlt)]
          exact ih (t + 1) (by omega) (by omega)
            (fun u hu1 hu2 => hno' u (by omega) hu2)
  exact H (t0 - t) t le_rfl ht hno

/-- C6: the period candidate fed to the parabolic-interpolation step is
chosen by scanning `τ` upward from 2: at the first `τ` whose normalized
value is below the 0.15 threshold, the scan walks forward while the next
normalized value is strictly smaller and stops at that local minimum; and
when no `τ` below N/2 drops below the threshold the estimator returns no
pitch (for frames of length ≥ 4, per the spec's minimum-frame-length
precondition). -/
theorem C6_threshold_search_thm (buf : Frame) (sr : ℝ)
    (hgate : ¬ jsLtR (rmsOpt buf) 0.01) (hhalf : 2 ≤ buf.length / 2) :
    (∀ t0, firstDip buf (buf.length / 2) t0 →
        scanTau buf (buf.length / 2) 2 = walkDip buf (buf.length / 2) t0
        ∧ t0 ≤ walkDip buf (buf.length / 2) t0
        ∧ (∀ k, t0 ≤ k → k < walkDip buf (buf.length / 2) t0 →
            k + 1 < buf.length / 2 ∧ jsLtO (yinVal buf (k + 1)) (yinVal buf k))
        ∧ ¬ (walkDip buf (buf.length / 2) t0 + 1 < buf.length / 2
            ∧ jsLtO (yinVal buf (walkDip buf (buf.length / 2) t0 + 1))
                (yinVal buf (walkDip buf (buf.length / 2) t0))))
    ∧ ((∀ t, 2 ≤ t → t < buf.length / 2 → ¬ jsLtR (yinVal buf t) 0.15) →
        detectPitch buf sr = none) := by
  constructor
  · rintro t0 ⟨h2t0, ht0h, hdip, hfirst⟩
    have hscan := scanTau_eq_walk_of_first_dip buf (buf.length / 2) t0 2
      h2t0 ht0h hdip (fun u hu1 hu2 => hfirst u hu1 hu2)
    obtain ⟨w1, w2, w3⟩ := walkDip_spec buf (buf.length / 2) t0
    exact ⟨hscan, w1, w2, w3⟩
  · intro hno
    have hscan := scanTau_eq_of_no_dip buf (buf.length / 2) 2 hhalf hno
    simp only [detectPitch]
    rw [if_neg hgate, hscan, if_pos rfl]

/-! ### The silence gate (claim C7) -/

/-- C7: a frame whose RMS amplitude is below the 0.01 noise floor — in
particular any nonempty all-zero frame — makes the estimator return no
pitch at the gate, before the difference function is evaluated.  (An empty
frame is excluded from the all-zero case: its JS RMS is the NaN `√(0/0)`,
which is not below the floor.) -/
theorem C7_silence_gate_thm :
    (∀ (buf : Frame) (sr : ℝ), jsLtR (rmsOpt buf) 0.01 → detectPitch buf sr = none)
    ∧ (∀ (n : ℕ) (sr : ℝ), 0 < n → detectPitch (List.replicate n (0 : ℝ)) sr = none) := by
  have hmain : ∀ (buf : Frame) (sr : ℝ), jsLtR (rmsOpt buf) 0.01 →
      detectPitch buf sr = none := by
    intro buf sr h
    simp only [detectPitch]
    rw [if_pos h]
  refine ⟨hmain, fun n sr hn => hmain _ sr ?_⟩
  unfold rmsOpt
  rw [if_neg (by simp only [List.length_replicate]; omega)]
  have hsq : sumSq (List.replicate n (0 : ℝ)) = 0 := by
    simp [sumSq]
  simp only [jsLtR]
  rw [hsq, zero_div, Real.sqrt_zero]
  norm_num

/-! ### Concrete evaluation of the detector on `bufLast` -/

theorem sumSq_bufLast : sumSq bufLast = 3 := by
  norm_num [sumSq, bufLast]

theorem bufLast_gate : ¬ jsLtR (rmsOpt bufLast) 0.01 := by
  unfold rmsOpt
  rw [if_neg (by norm_num [bufLast])]
  simp only [jsLtR, sumSq_bufLast]
  rw [show ((bufLast.length : ℕ) : ℝ) = 8 by norm_num [bufLast]]
  rw [Real.sqrt_lt' (by norm_num)]
  norm_num

theorem bufLast_d1 : diffFn bufLast 1 = 3 := by
  norm_num [diffFn, bufLast, Finset.sum_range_succ]

theorem bufLast_d2 : diffFn bufLast 2 = 3 := by
  norm_num [diffFn, bufLast, Finset.sum_range_succ]

theorem bufLast_d3 : diffFn bufLast 3 = 0 := by
  norm_num [diffFn, bufLast, Finset.sum_range_succ]

theorem bufLast_cum1 : cumDiff bufLast 1 = 3 := by
  rw [show cumDiff bufLast 1 = cumDiff bufLast 0 + diffFn bufLast 1 from rfl,
    cumDiff_zero, bufLast_d1]
  norm_num

theorem bufLast_cum2 : cumDiff bufLast 2 = 6 := by
  rw [show cumDiff bufLast 2 = cumDiff bufLast 1 + diffFn bufLast 2 from rfl,
    bufLast_cum1, bufLast_d2]
  norm_num

theorem bufLast_cum3 : cumDiff bufLast 3 = 6 := by
  rw [show cumDiff bufLast 3 = cumDiff bufLast 2 + diffFn bufLast 3 from rfl,
    bufLast_cum2, bufLast_d3]
  norm_num

theorem bufLast_yin2 : yinVal bufLast 2 = some 1 := by
  unfold yinVal
  rw [if_neg (by omega), if_neg (by rw [bufLast_cum2]; norm_num),
    bufLast_cum2, bufLast_d2]
  norm_num

theorem bufLast_yin3 : yinVal bufLast 3 = some 0 := by
  unfold yinVal
  rw [if_neg (by omega), if_neg (by rw [bufLast_cum3]; norm_num),
    bufLast_cum3, bufLast_d3]
  norm_num

theorem bufLast_scan : scanTau bufLast 4 2 = 3 := by
  rw [scanTau, dif_pos (by norm_num), bufLast_yin2]
  rw [if_neg (by simp only [jsLtR]; norm_num)]
  show scanTau bufLast 4 3 = 3
  rw [scanTau, dif_pos (by norm_num), bufLast_yin3]
  rw [if_pos (by simp only [jsLtR]; norm_num)]
  rw [walkDip, dif_neg (by rintro ⟨hlt, -⟩; omega)]

/-- C4 (failing input): on the even-length frame [1,0,0,1,0,0,1,0] the
first below-threshold lag is τ = 3 = SIZE/2 − 1, so the parabolic step
reads `yinBuffer[4]` — one past the end of the length-4 normalized buffer.
The JS read yields `undefined`, the interpolation arithmetic turns it into
NaN, NaN fails both range comparisons, and `detectPitch` returns NaN to its
caller instead of null or an in-range frequency. -/
theorem C4_nan_thm : detectPitch bufLast 48000 = some JSNum.nan := by
  simp only [detectPitch]
  rw [if_neg bufLast_gate]
  rw [show bufLast.length / 2 = 4 from rfl, bufLast_scan]
  rw [if_neg (by norm_num)]
  have hr0 : yinRead bufLast 4 (3 - 1) = some 1 := by
    unfold yinRead
    rw [if_pos (by norm_num), show (3 - 1 : ℕ) = 2 from rfl, bufLast_yin2]
  have hr1 : yinRead bufLast 4 3 = some 0 := by
    unfold yinRead
    rw [if_pos (by norm_num), bufLast_yin3]
  have hr2 : yinRead bufLast 4 (3 + 1) = none := by
    unfold yinRead
    rw [if_neg (by norm_num)]
  rw [hr0, hr1, hr2]
  simp [betterTauOf, jsDiv, rangeCheck, jsNumLt, jsNumGt]

/-! ### Witnesses for the estimator claims -/

/-- C5 witness: the normalization theorem applied to the concrete frame
`bufLast` at lag 2, where the formula gives 2·3/(3+3) = 1. -/
theorem C5_normalization_witness :
    yinVal bufLast 2 =
      some ((2 : ℝ) * diffFn bufLast 2 / ∑ j in Finset.Icc 1 2, diffFn bufLast j) := by
  refine (C5_normalization_thm bufLast 2 rfl bufLast_gate (by norm_num)
    (by norm_num [bufLast]) ?_).1
  rw [← cumDiff_eq_sum, bufLast_cum2]
  norm_num

/-- C6 witness: the threshold-search theorem applied to `bufLast`, whose
first dip is at τ₀ = 3; the scan result is the walk from 3. -/
theorem C6_threshold_search_witness :
    scanTau bufLast 4 2 = walkDip bufLast 4 3 := by
  have h := (C6_threshold_search_thm bufLast 48000 bufLast_gate
    (by norm_num [bufLast])).1 3 ?_
  · exact h.1
  · refine ⟨by norm_num, by norm_num [bufLast], ?_, ?_⟩
    · rw [bufLast_yin3]
      simp only [jsLtR]
      norm_num
    · intro t h2t ht3
      have : t = 2 := by omega
      subst this
      rw [bufLast_yin2]
      simp only [jsLtR]
      norm_num

/-- C7 witness: the silence-gate theorem applied to the all-zero length-8
frame. -/
theorem C7_silence_gate_witness : detectPitch (List.replicate 8 (0 : ℝ)) 48000 = none :=
  C7_silence_gate_thm.2 8 48000 (by norm_num)

/-! ### Concrete evaluation of the detector on the period-2 frame `bufP2` -/

theorem sumSq_bufP2 : sumSq bufP2 = 8 := by
  norm_num [sumSq, bufP2]

theorem bufP2_gate : ¬ jsLtR (rmsOpt bufP2) 0.01 := by
  unfold rmsOpt
  rw [if_neg (by norm_num [bufP2])]
  simp only [jsLtR, sumSq_bufP2]
  rw [show ((bufP2.length : ℕ) : ℝ) = 8 by norm_num [bufP2]]
  rw [show (8 : ℝ) / 8 = 1 by norm_num, Real.sqrt_one]
  norm_num

theorem bufP2_d1 : diffFn bufP2 1 = 16 := by
  norm_num [diffFn, bufP2, Finset.sum_range_succ]

theorem bufP2_d2 : diffFn bufP2 2 = 0 := by
  norm_num [diffFn, bufP2, Finset.sum_range_succ]

theorem bufP2_d3 : diffFn bufP2 3 = 16 := by
  norm_num [diffFn, bufP2, Finset.sum_range_succ]

theorem bufP2_cum1 : cumDiff bufP2 1 = 16 := by
  rw [show cumDiff bufP2 1 = cumDiff bufP2 0 + diffFn bufP2 1 from rfl,
    cumDiff_zero, bufP2_d1]
  norm_num

theorem bufP2_cum2 : cumDiff bufP2 2 = 16 := by
  rw [show cumDiff bufP2 2 = cumDiff bufP2 1 + diffFn bufP2 2 from rfl,
    bufP2_cum1, bufP2_d2]
  norm_num

theorem bufP2_cum3 : cumDiff bufP2 3 = 32 := by
  rw [show cumDiff bufP2 3 = cumDiff bufP2 2 + diffFn bufP2 3 from rfl,
    bufP2_cum2, bufP2_d3]
  norm_num

theorem bufP2_yin1 : yinVal bufP2 1 = some 1 := by
  unfold yinVal
  rw [if_neg (by omega), if_neg (by rw [bufP2_cum1]; norm_num),
    bufP2_cum1, bufP2_d1]
  norm_num

theorem bufP2_yin2 : yinVal bufP2 2 = some 0 := by
  unfold yinVal
  rw [if_neg (by omega), if_neg (by rw [bufP2_cum2]; norm_num),
    bufP2_cum2, bufP2_d2]
  norm_num

theorem bufP2_yin3 : yinVal bufP2 3 = some (3 / 2) := by
  unfold yinVal
  rw [if_neg (by omega), if_neg (by rw [bufP2_cum3]; norm_num),
    bufP2_cum3, bufP2_d3]
  norm_num

theorem bufP2_scan : scanTau bufP2 4 2 = 2 := by
  rw [scanTau, dif_pos (by norm_num), bufP2_yin2]
  rw [if_pos (by simp only [jsLtR]; norm_num)]
  rw [walkDip, dif_neg ?_]
  rintro ⟨-, hlt⟩
  rw [bufP2_yin3, bufP2_yin2] at hlt
  simp only [jsLtO] at hlt
  norm_num at hlt

/-- On the exact period-2 frame the detector finds the dip at lag 2, the
parabola through (1, 0, 3/2) refines it to 1.9, and the returned value is
the sample rate divided by 1.9, run through the guitar-range filter. -/
theorem detectPitch_bufP2 (sr : ℝ) :
    detectPitch bufP2 sr = rangeCheck (jsDiv sr (JSNum.fin (19 / 10))) := by
  simp only [detectPitch]
  rw [if_neg bufP2_gate]
  rw [show bufP2.length / 2 = 4 from rfl, bufP2_scan]
  rw [if_neg (by norm_num)]
  have hr0 : yinRead bufP2 4 (2 - 1) = some 1 := by
    unfold yinRead
    rw [if_pos (by norm_num), show (2 - 1 : ℕ) = 1 from rfl, bufP2_yin1]
  have hr1 : yinRead bufP2 4 2 = some 0 := by
    unfold yinRead
    rw [if_pos (by norm_num), bufP2_yin2]
  have hr2 : yinRead bufP2 4 (2 + 1) = some (3 / 2) := by
    unfold yinRead
    rw [if_pos (by norm_num), show (2 + 1 : ℕ) = 3 from rfl, bufP2_yin3]
  rw [hr0, hr1, hr2]
  have hbt : betterTauOf 2 (some 1) (some 0) (some (3 / 2)) = JSNum.fin (19 / 10) := by
    simp only [betterTauOf]
    rw [if_neg (by norm_num)]
    norm_num
  rw [hbt]

theorem detectPitch_bufP2_440 : detectPitch bufP2 836 = some (JSNum.fin 440) := by
  rw [detectPitch_bufP2]
  have hdiv : jsDiv 836 (JSNum.fin (19 / 10)) = JSNum.fin 440 := by
    simp only [jsDiv]
    rw [if_neg (show ¬ ((19 : ℝ) / 10 = 0) by norm_num)]
    norm_num
  rw [hdiv]
  unfold rangeCheck
  rw [if_neg (by simp only [jsNumLt, jsNumGt]; push_neg; norm_num)]

theorem two_rpow_inv48_gt_one : (1 : ℝ) < (2 : ℝ) ^ ((1 : ℝ) / 48) := by
  rw [Real.one_lt_rpow_iff_of_pos (by norm_num)]
  left
  norm_num

theorem two_rpow_inv48_lt_two : (2 : ℝ) ^ ((1 : ℝ) / 48) < 2 := by
  have h := Real.rpow_lt_rpow_of_exponent_lt (x := 2) (by norm_num)
    (show (1 : ℝ) / 48 < 1 by norm_num)
  rwa [Real.rpow_one] at h

theorem detectPitch_bufP2_sharp :
    detectPitch bufP2 (836 * (2 : ℝ) ^ ((1 : ℝ) / 48)) =
      some (JSNum.fin (440 * (2 : ℝ) ^ ((1 : ℝ) / 48))) := by
  rw [detectPitch_bufP2]
  have hdiv : jsDiv (836 * (2 : ℝ) ^ ((1 : ℝ) / 48)) (JSNum.fin (19 / 10)) =
      JSNum.fin (440 * (2 : ℝ) ^ ((1 : ℝ) / 48)) := by
    simp only [jsDiv]
    rw [if_neg (show ¬ ((19 : ℝ) / 10 = 0) by norm_num)]
    have h : (836 * (2 : ℝ) ^ ((1 : ℝ) / 48)) / (19 / 10) =
        440 * (2 : ℝ) ^ ((1 : ℝ) / 48) := by ring
    rw [h]
  rw [hdiv]
  unfold rangeCheck
  rw [if_neg ?_]
  simp only [jsNumLt, jsNumGt]
  push_neg
  have h1 := two_rpow_inv48_gt_one
  have h2 := two_rpow_inv48_lt_two
  constructor
  · nlinarith
  · nlinarith

/-! ### The detect cycle: step lemmas -/

theorem jsTruthy_fin {x : ℝ} (hx : x ≠ 0) : jsTruthy (some (JSNum.fin x)) := hx

theorem detectStep_no_pitch (sr : ℝ) (s : MeterState) (buf : Frame)
    (h : detectPitch buf sr = none) :
    detectStep sr s buf = { s with frequency := none, noteInfo := none } := by
  simp only [detectStep, h]
  rw [if_neg (by simp [jsTruthy])]

theorem detectStep_pitch_history (sr : ℝ) (s : MeterState) (buf : Frame) (x : ℝ)
    (h : detectPitch buf sr = some (JSNum.fin x)) (hx : x ≠ 0) :
    (detectStep sr s buf).history =
      if SMOOTHING_SIZE < (s.history ++ [(freqToNote x).cents]).length
      then (s.history ++ [(freqToNote x).cents]).tail
      else s.history ++ [(freqToNote x).cents] := by
  simp only [detectStep, h]
  rw [if_pos (jsTruthy_fin hx)]
  rfl

theorem detectStep_pitch_note (sr : ℝ) (s : MeterState) (buf : Frame) (x : ℝ)
    (h : detectPitch buf sr = some (JSNum.fin x)) (hx : x ≠ 0) :
    (detectStep sr s buf).noteInfo = some (freqToNote x)
    ∧ (detectStep sr s buf).frequency = some (JSNum.fin x) := by
  simp only [detectStep, h]
  rw [if_pos (jsTruthy_fin hx)]
  exact ⟨rfl, rfl⟩

theorem detectStep_pitch_smoothed (sr : ℝ) (s : MeterState) (buf : Frame) (x : ℝ)
    (h : detectPitch buf sr = some (JSNum.fin x)) (hx : x ≠ 0) :
    (detectStep sr s buf).smoothedCents =
      ((detectStep sr s buf).history.sum : ℝ) /
        ((detectStep sr s buf).history.length : ℝ) := by
  simp only [detectStep, h]
  rw [if_pos (jsTruthy_fin hx)]

theorem detectStep_history_le (sr : ℝ) (s : MeterState) (buf : Frame)
    (h : s.history.length ≤ SMOOTHING_SIZE) :
    (detectStep sr s buf).history.length ≤ SMOOTHING_SIZE := by
  simp only [detectStep, SMOOTHING_SIZE] at h ⊢
  by_cases ht : jsTruthy (detectPitch buf sr)
  · rw [if_pos ht]
    by_cases hlen : 8 <
        (s.history ++ [(freqToNote (finPart (detectPitch buf sr))).cents]).length
    · rw [if_pos hlen]
      simp only [List.length_tail, List.length_append, List.length_cons,
        List.length_nil] at *
      omega
    · rw [if_neg hlen]
      simp only [List.length_append, List.length_cons, List.length_nil] at *
      omega
  · rw [if_neg ht]
    exact h

theorem runDetect_history_le (sr : ℝ) (s : MeterState) (frames : List Frame)
    (h : s.history.length ≤ SMOOTHING_SIZE) :
    (runDetect sr s frames).history.length ≤ SMOOTHING_SIZE := by
  induction frames generalizing s with
  | nil => exact h
  | cons b bs ih => exact ih (detectStep sr s b) (detectStep_history_le sr s b h)

/-- C8: the deviation history never holds more than `SMOOTHING_SIZE` = 8
entries at any point of a run; each successful detection appends the new
cents value at the back — evicting exactly the oldest (front) entry when
the window is already full — and the published smoothed cents equals the
arithmetic mean of the current window contents. -/
theorem C8_window_thm (sr : ℝ) :
    (∀ (s : MeterState) (frames : List Frame),
        s.history.length ≤ SMOOTHING_SIZE →
        (runDetect sr s frames).history.length ≤ SMOOTHING_SIZE)
    ∧ (∀ (s : MeterState) (buf : Frame) (x : ℝ),
        detectPitch buf sr = some (JSNum.fin x) → x ≠ 0 →
        ((s.history.length < SMOOTHING_SIZE →
            (detectStep sr s buf).history = s.history ++ [(freqToNote x).cents])
        ∧ (s.history.length = SMOOTHING_SIZE →
            (detectStep sr s buf).history = s.history.tail ++ [(freqToNote x).cents])
        ∧ (detectStep sr s buf).smoothedCents =
            ((detectStep sr s buf).history.sum : ℝ) /
              ((detectStep sr s buf).history.length : ℝ))) := by
  refine ⟨runDetect_history_le sr, ?_⟩
  intro s buf x h hx
  have hh := detectStep_pitch_history sr s buf x h hx
  refine ⟨?_, ?_, detectStep_pitch_smoothed sr s buf x h hx⟩
  · intro hlt
    rw [hh, if_neg]
    simp only [List.length_append, List.length_cons, List.length_nil,
      SMOOTHING_SIZE] at *
    omega
  · intro heq
    rw [hh, if_pos]
    · refine List.tail_append_singleton_of_ne_nil ?_
      intro hnil
      rw [hnil] at heq
      simp [SMOOTHING_SIZE] at heq
    · simp only [List.length_append, List.length_cons, List.length_nil,
        SMOOTHING_SIZE] at *
      omega

/-- C8 witness: the window theorem applied to the spec's example window
[10,10,10,-10,-10,-10,-10,-10] (already at capacity 8) and a ninth
detection of an exact A440 (cents 0): the oldest 10 is evicted and the
mean becomes (20 − 50 + 0)/8 = −15/4. -/
theorem C8_window_witness :
    (detectStep 836 st8 bufP2).history = [(10 : ℤ), 10, -10, -10, -10, -10, -10, 0]
    ∧ (detectStep 836 st8 bufP2).smoothedCents = -15 / 4 := by
  obtain ⟨h1, h2, h3⟩ := (C8_window_thm 836).2 st8 bufP2 440
    detectPitch_bufP2_440 (by norm_num)
  have hh : (detectStep 836 st8 bufP2).history =
      st8.history.tail ++ [(freqToNote 440).cents] := h2 rfl
  rw [freqToNote_440] at hh
  constructor
  · rw [hh]
    rfl
  · rw [h3, hh]
    norm_num [st8]

/-! ### Claim C1: the no-pitch cycle does not reset the stabilizer -/

theorem detectPitch_silence8 (sr : ℝ) : detectPitch silence8 sr = none := by
  have hq : jsLtR (rmsOpt silence8) 0.01 := by
    unfold rmsOpt
    rw [if_neg (by norm_num [silence8])]
    simp only [jsLtR]
    have hsq : sumSq silence8 = 0 := by simp [sumSq, silence8]
    rw [hsq, zero_div, Real.sqrt_zero]
    norm_num
  simp only [detectPitch]
  rw [if_pos hq]

/-- C1 (counterexample): start an active session, detect an exact A440
(history becomes [0]), then feed one silent frame: the published note is
cleared, but the cents history is NOT emptied — it still holds the
pre-silence reading.  The next successful detection (a quarter-of-a-
semitone-sharp tone whose raw cents is 25) therefore publishes the smoothed
value (0 + 25)/2 = 12.5, not the single frame's raw 25 cents: the claimed
reset never happens. -/
theorem C1_counterexample :
    (detectStep 836 (detectStep 836 (startMicState initialMeter) bufP2) silence8).noteInfo = none
    ∧ (detectStep 836 (detectStep 836 (startMicState initialMeter) bufP2) silence8).history = [0]
    ∧ (detectStep 836 (detectStep 836 (startMicState initialMeter) bufP2) silence8).history ≠ []
    ∧ (freqToNote (440 * (2 : ℝ) ^ ((1 : ℝ) / 48))).cents = 25
    ∧ (detectStep (836 * (2 : ℝ) ^ ((1 : ℝ) / 48))
        (detectStep 836 (detectStep 836 (startMicState initialMeter) bufP2) silence8)
        bufP2).smoothedCents = 25 / 2 := by
  have h1hist : (detectStep 836 (startMicState initialMeter) bufP2).history = [0] := by
    rw [detectStep_pitch_history 836 (startMicState initialMeter) bufP2 440
      detectPitch_bufP2_440 (by norm_num), freqToNote_440]
    rfl
  have hs2 := detectStep_no_pitch 836 (detectStep 836 (startMicState initialMeter) bufP2)
    silence8 (detectPitch_silence8 836)
  have h2note : (detectStep 836 (detectStep 836 (startMicState initialMeter) bufP2)
      silence8).noteInfo = none := by
    rw [hs2]
  have h2hist : (detectStep 836 (detectStep 836 (startMicState initialMeter) bufP2)
      silence8).history = [0] := by
    rw [hs2]
    exact h1hist
  have hxpos : (0 : ℝ) < 440 * (2 : ℝ) ^ ((1 : ℝ) / 48) := by positivity
  have h3hist : (detectStep (836 * (2 : ℝ) ^ ((1 : ℝ) / 48))
      (detectStep 836 (detectStep 836 (startMicState initialMeter) bufP2) silence8)
      bufP2).history = [0, 25] := by
    rw [detectStep_pitch_history (836 * (2 : ℝ) ^ ((1 : ℝ) / 48)) _ bufP2
      (440 * (2 : ℝ) ^ ((1 : ℝ) / 48)) detectPitch_bufP2_sharp (ne_of_gt hxpos)]
    rw [freqToNote_quartersharp_48, h2hist]
    rfl
  have h3sm := detectStep_pitch_smoothed (836 * (2 : ℝ) ^ ((1 : ℝ) / 48))
    (detectStep 836 (detectStep 836 (startMicState initialMeter) bufP2) silence8)
    bufP2 (440 * (2 : ℝ) ^ ((1 : ℝ) / 48)) detectPitch_bufP2_sharp (ne_of_gt hxpos)
  refine ⟨h2note, h2hist, by rw [h2hist]; simp, freqToNote_quartersharp_48, ?_⟩
  rw [h3sm, h3hist]
  norm_num

/-- C1 (amended): on a cycle where the estimator returns no pitch while the
session is active, the code clears the published note and frequency but
does NOT reset the Deviation Stabilizer: the cents history and the smoothed
value persist unchanged, so the next successful detection averages the
pre-silence history with the new frame's cents (see the counterexample).
The history is only emptied by `stopMic`/`startMic`. -/
theorem C1_amended_thm (sr : ℝ) (s : MeterState) (buf : Frame)
    (h : detectPitch buf sr = none) :
    (detectStep sr s buf).noteInfo = none
    ∧ (detectStep sr s buf).frequency = none
    ∧ (detectStep sr s buf).history = s.history
    ∧ (detectStep sr s buf).smoothedCents = s.smoothedCents := by
  rw [detectStep_no_pitch sr s buf h]
  exact ⟨rfl, rfl, rfl, rfl⟩

/-- C1 witness: the amended theorem applied to a concrete silent frame fed
to a session holding the example window. -/
theorem C1_amended_witness :
    (detectStep 836 st8 silence8).noteInfo = none
    ∧ (detectStep 836 st8 silence8).history = st8.history :=
  ⟨(C1_amended_thm 836 st8 silence8 (detectPitch_silence8 836)).1,
   (C1_amended_thm 836 st8 silence8 (detectPitch_silence8 836)).2.2.1⟩
